import Mathlib

/-!
A shallow embedding of the voice-controlled to-do application
(`VoiceToDoApp`, in its two source variants: the regex-based one and the
`includes`-based one) together with proofs about its command matcher,
task store, recognition-session state machine and `onend` restart handler.

Strings are modelled as `List Char`.  The JavaScript regular expressions
used by `findBestCommandMatch` are all of a very restricted linear shape
(literals, `\s+`, and a single `(.+)` group), so they are embedded by a
small backtracking engine (`matchAt`/`search`) that reproduces the
leftmost-match, greedy-with-backtracking semantics of the JavaScript
engine on exactly that shape.
-/

namespace VoiceToDo

/-- Characters of the JavaScript regex class `\s` (and of
`String.prototype.trim`), restricted to the ASCII range. -/
def isWsChar (c : Char) : Bool :=
  c == ' ' || c == '\t' || c == '\n' || c == '\r' || c == '\x0b' || c == '\x0c'

/-- Characters matched by the JavaScript regex metacharacter `.`:
everything except line terminators. -/
def isDotChar (c : Char) : Bool :=
  !(c == '\n' || c == '\r')

/-- Shorthand turning a string literal into the character-list
representation used throughout this development. -/
def str (s : String) : List Char := s.toList

/-- Lower-casing, as `String.prototype.toLowerCase` acts on ASCII text. -/
def toLowerStr (s : List Char) : List Char := s.map Char.toLower

/-- JavaScript `String.prototype.trim`: drop leading and trailing
whitespace. -/
def trimList (s : List Char) : List Char :=
  (s.dropWhile isWsChar).rdropWhile isWsChar

/-- JavaScript `String.prototype.includes` on our string model. -/
def jsIncludes : List Char → List Char → Bool
  | [], sub => sub.isEmpty
  | s@(_ :: t), sub => sub.isPrefixOf s || jsIncludes t sub

/-- JavaScript `String.prototype.replace` with a plain-string pattern:
replace the first occurrence of `pat` by `rep` (no change if absent). -/
def replaceFirst : List Char → List Char → List Char → List Char
  | [], pat, rep => if pat.isEmpty then rep else []
  | s@(c :: t), pat, rep =>
    if pat.isPrefixOf s then rep ++ s.drop pat.length
    else c :: replaceFirst t pat rep

/-- One item of a linear regular-expression pattern: a literal string,
the quantified class `\s+`, or the single capturing group `(.+)`. -/
inductive RItem where
  | lit (l : List Char)
  | ws
  | dot

/-- Length of the maximal run of characters satisfying `p` at the head of
the string. -/
def countRun (p : Char → Bool) : List Char → Nat
  | [] => 0
  | c :: t => if p c then countRun p t + 1 else 0

/-- Try `f` at `n, n-1, …, 1` and return the first `some`: the
backtracking order of a greedy `+` quantifier (longest take first). -/
def firstSome {α : Type} (f : Nat → Option α) : Nat → Option α
  | 0 => none
  | n + 1 =>
    match f (n + 1) with
    | some a => some a
    | none => firstSome f n

/-- Backtracking matcher for a pattern anchored at the current position:
`some cap` when the items match some prefix of `s`, where `cap` is the
text consumed by `(.+)` if that group occurs, and `none` otherwise.
Greedy quantifiers try the longest take first and backtrack, exactly as
the JavaScript engine does on this pattern shape. -/
def matchAt : List RItem → List Char → Option (Option (List Char))
  | [], _ => some none
  | .lit l :: rest, s =>
    if l.isPrefixOf s then matchAt rest (s.drop l.length) else none
  | .ws :: rest, s =>
    firstSome (fun j => matchAt rest (s.drop j)) (countRun isWsChar s)
  | .dot :: rest, s =>
    firstSome (fun j =>
      match matchAt rest (s.drop j) with
      | some c => some (some (c.getD (s.take j)))
      | none => none) (countRun isDotChar s)

/-- Unanchored matching: try every start position from left to right, as
JavaScript `String.prototype.match` does for a pattern without `^`. -/
def search (items : List RItem) : List Char → Option (Option (List Char))
  | [] => matchAt items []
  | c :: t =>
    match matchAt items (c :: t) with
    | some r => some r
    | none => search items t

/-- Result of `lowerInput.match(pattern)` as consumed by the matcher:
on success the content is `match[1] || ''`. -/
def matchPattern (items : List RItem) (s : List Char) : Option (List Char) :=
  match search items s with
  | some c => some (c.getD [])
  | none => none

/-- One command family of `findBestCommandMatch`: its name, its primary
regex and its alternative regexes. -/
structure CommandPattern where
  name : String
  pattern : List RItem
  altPatterns : List (List RItem)

/-- The `add` family: `/add\s+task\s+(.+)/i` with alternatives
`/add\s+(.+)/i`, `/create\s+task\s+(.+)/i`, `/new\s+task\s+(.+)/i`. -/
def addFamily : CommandPattern :=
  { name := "add"
    pattern := [.lit (str "add"), .ws, .lit (str "task"), .ws, .dot]
    altPatterns :=
      [[.lit (str "add"), .ws, .dot],
       [.lit (str "create"), .ws, .lit (str "task"), .ws, .dot],
       [.lit (str "new"), .ws, .lit (str "task"), .ws, .dot]] }

/-- The `mark` family: `/mark\s+(.+)\s+as\s+done/i` with alternatives
`/complete\s+(.+)/i`, `/finish\s+(.+)/i`, `/check\s+off\s+(.+)/i`. -/
def markFamily : CommandPattern :=
  { name := "mark"
    pattern :=
      [.lit (str "mark"), .ws, .dot, .ws, .lit (str "as"), .ws, .lit (str "done")]
    altPatterns :=
      [[.lit (str "complete"), .ws, .dot],
       [.lit (str "finish"), .ws, .dot],
       [.lit (str "check"), .ws, .lit (str "off"), .ws, .dot]] }

/-- The `delete` family: `/delete\s+task\s+(.+)/i` with alternatives
`/remove\s+task\s+(.+)/i`, `/delete\s+(.+)/i`, `/remove\s+(.+)/i`. -/
def deleteFamily : CommandPattern :=
  { name := "delete"
    pattern := [.lit (str "delete"), .ws, .lit (str "task"), .ws, .dot]
    altPatterns :=
      [[.lit (str "remove"), .ws, .lit (str "task"), .ws, .dot],
       [.lit (str "delete"), .ws, .dot],
       [.lit (str "remove"), .ws, .dot]] }

/-- The `clear` family: `/clear\s+all\s+tasks/i` with alternatives
`/clear\s+tasks/i`, `/delete\s+all\s+tasks/i`, `/remove\s+all\s+tasks/i`. -/
def clearFamily : CommandPattern :=
  { name := "clear"
    pattern := [.lit (str "clear"), .ws, .lit (str "all"), .ws, .lit (str "tasks")]
    altPatterns :=
      [[.lit (str "clear"), .ws, .lit (str "tasks")],
       [.lit (str "delete"), .ws, .lit (str "all"), .ws, .lit (str "tasks")],
       [.lit (str "remove"), .ws, .lit (str "all"), .ws, .lit (str "tasks")]] }

/-- The command families in the fixed order of the source array. -/
def commandPatterns : List CommandPattern :=
  [addFamily, markFamily, deleteFamily, clearFamily]

/-- The structured command produced by the matcher. -/
structure CmdResult where
  command : String
  content : List Char
deriving DecidableEq

/-- Inner loop of `findBestCommandMatch`: primary pattern first, then the
alternative patterns in order. -/
def tryFamily (cmd : CommandPattern) (s : List Char) : Option (List Char) :=
  match matchPattern cmd.pattern s with
  | some c => some c
  | none => cmd.altPatterns.findSome? (fun p => matchPattern p s)

/-- Outer loop of `findBestCommandMatch` over the four families. -/
def matchFamilies (s : List Char) : Option CmdResult :=
  commandPatterns.findSome? (fun cmd => (tryFamily cmd s).map (fun c => ⟨cmd.name, c⟩))

/-- `findBestCommandMatch` of the regex-based source variant: lower-case
and trim the input, try the families in order, and fall back to
`unknown` carrying the lower-cased (trimmed) input. -/
def findBestCommandMatch (input : List Char) : CmdResult :=
  let lowerInput := trimList (toLowerStr input)
  match matchFamilies lowerInput with
  | some r => r
  | none => ⟨"unknown", lowerInput⟩

/-- A to-do item: `{ id: number, content: string, completed: boolean }`.
The source uses `Date.now()` (a numeric timestamp) as the id. -/
structure Task where
  id : Nat
  content : List Char
  completed : Bool
deriving DecidableEq

/-- The distinct status messages the component writes with `setFeedback`,
one constructor per template string of the source (the argument is the
interpolated fragment). -/
inductive Feedback where
  | empty
  | addedTask (content : List Char)
  | noTaskContentSpecified
  | noTaskToMark
  | noTaskToDelete
  | markedTasks (fragment : List Char)
  | noTasksFound (fragment : List Char)
  | deletedTask (fragment : List Char)
  | noTaskFound (fragment : List Char)
  | allCleared
  | didNotRecognize (command : List Char)
  | commandProcessed
  | noCommandToProcess
  | commandCancelled
  | errorFeedback (code : List Char)
  | stoppedUnexpectedly
deriving DecidableEq

/-- `addTask`: append a fresh task whose id is the current clock value
(`Date.now()` in the source, passed in here as `now`). -/
def addTask (now : Nat) (content : List Char) (tasks : List Task) : List Task :=
  tasks ++ [{ id := now, content := content, completed := false }]

/-- The case-insensitive substring test
`task.content.toLowerCase().includes(taskContent.toLowerCase())`. -/
def taskMatches (taskContent : List Char) (task : Task) : Bool :=
  jsIncludes (toLowerStr task.content) (toLowerStr taskContent)

/-- `markTaskAsDone`: mark every matching task completed; the `found`
flag set inside the updater is reported after the update (modelled with
the functional update applied synchronously). -/
def markTaskAsDone (taskContent : List Char) (tasks : List Task) :
    List Task × Feedback :=
  let newTasks := tasks.map (fun task =>
    if taskMatches taskContent task then { task with completed := true } else task)
  if tasks.any (taskMatches taskContent) then
    (newTasks, .markedTasks taskContent)
  else
    (newTasks, .noTasksFound taskContent)

/-- `deleteTask`: filter out every matching task.  The reported status
tests `tasks.length !== initialLength`, where both reads refer to the
unchanged pre-update state snapshot `tasks` (the `setTasks` updater does
not reassign the captured variable), so the test compares the old length
with itself. -/
def deleteTask (taskContent : List Char) (tasks : List Task) :
    List Task × Feedback :=
  let initialLength := tasks.length
  let newTasks := tasks.filter (fun task => !(taskMatches taskContent task))
  if tasks.length ≠ initialLength then
    (newTasks, .deletedTask taskContent)
  else
    (newTasks, .noTaskFound taskContent)

/-- `handleManualDelete`: remove the task with the given id. -/
def handleManualDelete (id : Nat) (tasks : List Task) : List Task :=
  tasks.filter (fun task => task.id != id)

/-- `handleManualToggle`: flip `completed` of the task with the given id. -/
def handleManualToggle (id : Nat) (tasks : List Task) : List Task :=
  tasks.map (fun task =>
    if task.id == id then { task with completed := !task.completed } else task)

/-- `processVoiceCommand` of the regex-based variant: run the matcher and
dispatch on the command name, checking for empty content first. -/
def processVoiceCommand (now : Nat) (command : List Char) (tasks : List Task) :
    List Task × Feedback :=
  let r := findBestCommandMatch command
  if r.command = "add" then
    if r.content.isEmpty then (tasks, .noTaskContentSpecified)
    else (addTask now r.content tasks, .addedTask r.content)
  else if r.command = "mark" then
    if r.content.isEmpty then (tasks, .noTaskToMark)
    else markTaskAsDone r.content tasks
  else if r.command = "delete" then
    if r.content.isEmpty then (tasks, .noTaskToDelete)
    else deleteTask r.content tasks
  else if r.command = "clear" then ([], .allCleared)
  else (tasks, .didNotRecognize command)

/-- `processVoiceCommand` of the `includes`-based variant: test the
lower-cased transcript for fixed substrings and extract the fragment by
deleting the keyword occurrences.  The add branch with empty extracted
content sets no feedback at all, so the pre-existing `feedback` is kept. -/
def processVoiceCommandTsx (now : Nat) (command : List Char)
    (tasks : List Task) (feedback : Feedback) : List Task × Feedback :=
  let lowerCommand := toLowerStr command
  if jsIncludes lowerCommand (str "add task") then
    let taskContent := trimList (replaceFirst lowerCommand (str "add task") [])
    if taskContent.isEmpty then (tasks, feedback)
    else (addTask now taskContent tasks, .addedTask taskContent)
  else if jsIncludes lowerCommand (str "mark") && jsIncludes lowerCommand (str "as done") then
    let taskToMark :=
      trimList (replaceFirst (replaceFirst lowerCommand (str "mark") []) (str "as done") [])
    markTaskAsDone taskToMark tasks
  else if jsIncludes lowerCommand (str "delete task") then
    deleteTask (trimList (replaceFirst lowerCommand (str "delete task") [])) tasks
  else if jsIncludes lowerCommand (str "clear all tasks") then ([], .allCleared)
  else (tasks, .didNotRecognize command)

/-- The task-store operations reachable from the interface: the four
voice operations plus the two manual (per-id) actions. -/
inductive StoreOp where
  | add (now : Nat) (content : List Char)
  | markDone (fragment : List Char)
  | delete (fragment : List Char)
  | clear
  | toggleById (id : Nat)
  | deleteById (id : Nat)

/-- Apply one store operation to the task list. -/
def applyOp : StoreOp → List Task → List Task
  | .add now content, tasks => addTask now content tasks
  | .markDone fragment, tasks => (markTaskAsDone fragment tasks).1
  | .delete fragment, tasks => (deleteTask fragment tasks).1
  | .clear, _ => []
  | .toggleById id, tasks => handleManualToggle id tasks
  | .deleteById id, tasks => handleManualDelete id tasks

/-- Run a sequence of store operations from the initial empty list. -/
def runOps (ops : List StoreOp) : List Task :=
  ops.foldl (fun tasks op => applyOp op tasks) []

/-- The clock values consumed by the `add` operations of a sequence, in
order (each becomes a task id). -/
def addTimes : List StoreOp → List Nat
  | [] => []
  | .add now _ :: rest => now :: addTimes rest
  | _ :: rest => addTimes rest

/-- The ids of a task list, in order. -/
def taskIds (tasks : List Task) : List Nat := tasks.map Task.id

/-- The component state touched by the transcript/confirmation workflow. -/
structure SessionState where
  tasks : List Task
  transcript : List Char
  editedTranscript : List Char
  isEditing : Bool
  processingCommand : Bool
  feedback : Feedback
deriving DecidableEq

/-- The initial component state. -/
def initSession : SessionState :=
  { tasks := [], transcript := [], editedTranscript := [], isEditing := false
    processingCommand := false, feedback := .empty }

/-- `clearInputs`: reset transcript, edited transcript, editing flag and
pending-command flag. -/
def clearInputs (st : SessionState) : SessionState :=
  { st with transcript := [], editedTranscript := [], isEditing := false
            processingCommand := false }

/-- The events driving the transcript/confirmation workflow: an incoming
recognition result, a manual edit of the editable transcript, toggling
edit mode, confirming (`finishCurrentCommand`, with the clock value used
for a possible add), cancelling, and an engine-reported error. -/
inductive SessionEvent where
  | result (s : List Char)
  | editChange (s : List Char)
  | toggleEdit
  | confirm (now : Nat)
  | cancel
  | error (code : List Char)

/-- One step of the session state machine, each case transcribing the
corresponding handler of the component. -/
def stepSession (st : SessionState) : SessionEvent → SessionState
  | .result s =>
    if (trimList s).isEmpty then st
    else { st with transcript := s, editedTranscript := s, processingCommand := true }
  | .editChange s => { st with editedTranscript := s }
  | .toggleEdit => { st with isEditing := !st.isEditing }
  | .confirm now =>
    if st.processingCommand && !(trimList st.editedTranscript).isEmpty then
      let pr := processVoiceCommandTsx now st.editedTranscript st.tasks st.feedback
      { clearInputs { st with tasks := pr.1 } with feedback := .commandProcessed }
    else { st with feedback := .noCommandToProcess }
  | .cancel => { clearInputs st with feedback := .commandCancelled }
  | .error code => { clearInputs st with feedback := .errorFeedback code }

/-- Run a sequence of session events from the initial state. -/
def runSession (evs : List SessionEvent) : SessionState :=
  evs.foldl stepSession initSession

/-- Outcome of the `onend` handler: how many times the external `start()`
call was made, and the resulting listening flag and status. -/
structure RestartResult where
  startCalls : Nat
  listening : Bool
  feedback : Feedback
deriving DecidableEq

/-- The `onend` handler: when the component believes it is listening it
calls `start()` once inside `try`; if that call throws (`startOk = false`)
it clears the listening flag and reports the unexpected stop.  When not
listening it does nothing. -/
def handleOnEnd (listening : Bool) (startOk : Bool) (feedback : Feedback) :
    RestartResult :=
  if listening then
    if startOk then { startCalls := 1, listening := listening, feedback := feedback }
    else { startCalls := 1, listening := false, feedback := .stoppedUnexpectedly }
  else { startCalls := 0, listening := listening, feedback := feedback }

/-! ### Helper lemmas about the string model -/

theorem dropWhile_append_left {p : Char → Bool} {l₁ l₂ : List Char}
    (h : l₁.dropWhile p ≠ []) :
    (l₁ ++ l₂).dropWhile p = l₁.dropWhile p ++ l₂ := by
  rw [List.dropWhile_append, if_neg]
  simpa [List.isEmpty_iff] using h

theorem head_dropWhile_false {p : Char → Bool} :
    ∀ {l t : List Char} {c : Char}, l.dropWhile p = c :: t → p c = false := by
  intro l
  induction l with
  | nil => intro t c h; simp [List.dropWhile] at h
  | cons a l ih =>
    intro t c h
    by_cases hpa : p a
    · exact ih (by simpa [List.dropWhile_cons, hpa] using h)
    · rw [List.dropWhile_cons, if_neg (by simp [hpa])] at h
      cases h
      exact Bool.eq_false_iff.mpr hpa

theorem dropWhile_rdropWhile_comm {p : Char → Bool} (l : List Char) :
    (l.rdropWhile p).dropWhile p = (l.dropWhile p).rdropWhile p := by
  rcases hd : l.dropWhile p with _ | ⟨c, t⟩
  · have hall : ∀ x ∈ l, p x := List.dropWhile_eq_nil_iff.1 hd
    have h1 : l.rdropWhile p = [] := List.rdropWhile_eq_nil_iff.2 hall
    simp [h1]
  · have hc : p c = false := head_dropWhile_false hd
    have hsplit : l.takeWhile p ++ (c :: t) = l := by
      rw [← hd]; exact List.takeWhile_append_dropWhile p l
    have hne : (c :: t).reverse.dropWhile p ≠ [] := by
      intro hnil
      have := List.dropWhile_eq_nil_iff.1 hnil c (by simp)
      simp [hc] at this
    have h2 : l.rdropWhile p = l.takeWhile p ++ (c :: t).rdropWhile p := by
      conv_lhs => rw [← hsplit]
      simp only [List.rdropWhile, List.reverse_append]
      rw [dropWhile_append_left hne]
      simp [List.rdropWhile]
    have h3 : ∃ t' : List Char, (c :: t).rdropWhile p = c :: t' := by
      have hne2 : (c :: t).rdropWhile p ≠ [] := by
        intro hnil
        have := List.rdropWhile_eq_nil_iff.1 hnil c (by simp)
        simp [hc] at this
      rcases hpre : (c :: t).rdropWhile p with _ | ⟨c', t'⟩
      · exact absurd hpre hne2
      · rcases List.rdropWhile_prefix (p := p) (l := c :: t) with ⟨s, hs⟩
        rw [hpre] at hs
        cases hs
        exact ⟨t', rfl⟩
    rcases h3 with ⟨t', ht'⟩
    rw [h2, ht', List.dropWhile_append_of_pos (fun a ha => List.mem_takeWhile_imp ha),
      List.dropWhile_cons, if_neg (by simp [hc])]

theorem trimList_eq_nil_iff {s : List Char} :
    trimList s = [] ↔ ∀ c ∈ s, isWsChar c = true := by
  unfold trimList
  rw [List.rdropWhile_eq_nil_iff]
  constructor
  · intro h c hc
    have hc' : c ∈ s.takeWhile isWsChar ++ s.dropWhile isWsChar := by
      rw [List.takeWhile_append_dropWhile isWsChar s]; exact hc
    rcases List.mem_append.1 hc' with h1 | h1
    · exact List.mem_takeWhile_imp h1
    · exact h c h1
  · intro h x hx
    exact h x ((List.dropWhile_sublist isWsChar).subset hx)

theorem countRun_cons_false {p : Char → Bool} {c : Char} {t : List Char}
    (h : p c = false) : countRun p (c :: t) = 0 := by
  simp [countRun, h]

theorem countRun_append_all {p : Char → Bool} {l₁ l₂ : List Char}
    (h : ∀ c ∈ l₁, p c = true) :
    countRun p (l₁ ++ l₂) = l₁.length + countRun p l₂ := by
  induction l₁ with
  | nil => simp
  | cons a t ih =>
    have ha : p a = true := h a (by simp)
    have ht : ∀ c ∈ t, p c = true := fun c hc => h c (by simp [hc])
    simp [countRun, ha, ih ht]
    omega

theorem countRun_all {p : Char → Bool} {l : List Char}
    (h : ∀ c ∈ l, p c = true) : countRun p l = l.length := by
  induction l with
  | nil => simp [countRun]
  | cons a t ih =>
    have ha : p a = true := h a (by simp)
    have ht : ∀ c ∈ t, p c = true := fun c hc => h c (by simp [hc])
    simp [countRun, ha, ih ht]

theorem countRun_dropWhile {p : Char → Bool} (l : List Char) :
    countRun p (l.dropWhile p) = 0 := by
  induction l with
  | nil => simp [List.dropWhile, countRun]
  | cons a t ih =>
    by_cases hpa : p a
    · simpa [List.dropWhile_cons, hpa] using ih
    · simp [List.dropWhile_cons, hpa, countRun_cons_false (Bool.eq_false_iff.mpr hpa)]

theorem firstSome_succ_of_some {α : Type} {f : Nat → Option α} {n : Nat} {a : α}
    (h : f (n + 1) = some a) : firstSome f (n + 1) = some a := by
  simp [firstSome, h]

theorem isPrefixOf_append_self {l t : List Char} : l.isPrefixOf (l ++ t) = true := by
  rw [List.isPrefixOf_iff_prefix]
  exact ⟨t, rfl⟩

theorem matchAt_lit_self {l t : List Char} {rest : List RItem} :
    matchAt (.lit l :: rest) (l ++ t) = matchAt rest t := by
  rw [matchAt, if_pos isPrefixOf_append_self, List.drop_left]

theorem search_cons_of_some {items : List RItem} {c : Char} {t : List Char}
    {r : Option (List Char)} (h : matchAt items (c :: t) = some r) :
    search items (c :: t) = some r := by
  simp [search, h]

theorem jsIncludes_nil (s : List Char) : jsIncludes s [] = true := by
  cases s <;> simp [jsIncludes]

theorem matchAt_ws_of {rest : List RItem} {s : List Char} {k : Nat}
    {r : Option (List Char)}
    (hk : countRun isWsChar s = k + 1)
    (h : matchAt rest (s.drop (k + 1)) = some r) :
    matchAt (.ws :: rest) s = some r := by
  simp only [matchAt]
  rw [hk]
  exact firstSome_succ_of_some h

theorem matchAt_dot_last {s : List Char} (hne : s ≠ [])
    (hdot : ∀ c ∈ s, isDotChar c = true) :
    matchAt [.dot] s = some (some s) := by
  obtain ⟨m, hm⟩ : ∃ m, s.length = m + 1 := by
    cases s with
    | nil => exact absurd rfl hne
    | cons a t => exact ⟨t.length, rfl⟩
  simp only [matchAt]
  rw [countRun_all hdot, hm]
  apply firstSome_succ_of_some
  show some (some (Option.getD none (s.take (m + 1)))) = some (some s)
  rw [Option.getD_none, ← hm, List.take_length]

theorem rdropWhile_append_left {p : Char → Bool} {l₁ l₂ : List Char}
    (h : l₂.reverse.dropWhile p ≠ []) :
    (l₁ ++ l₂).rdropWhile p = l₁ ++ l₂.rdropWhile p := by
  simp only [List.rdropWhile, List.reverse_append]
  rw [dropWhile_append_left h]
  simp

theorem exists_notWs_of_trim_ne_nil {s : List Char} (h : trimList s ≠ []) :
    ∃ c ∈ s, isWsChar c = false := by
  by_contra hcon
  push_neg at hcon
  apply h
  rw [trimList_eq_nil_iff]
  intro c hc
  have := hcon c hc
  simpa using this

theorem reverse_dropWhile_ne_nil_of_trim {s : List Char} (h : trimList s ≠ []) :
    s.reverse.dropWhile isWsChar ≠ [] := by
  rcases exists_notWs_of_trim_ne_nil h with ⟨c, hc, hcw⟩
  intro hnil
  have := List.dropWhile_eq_nil_iff.1 hnil c (by simpa using hc)
  simp [hcw] at this

theorem countRun_eq_length_takeWhile {p : Char → Bool} (l : List Char) :
    countRun p l = (l.takeWhile p).length := by
  induction l with
  | nil => simp [countRun]
  | cons a t ih => by_cases hpa : p a <;> simp [countRun, List.takeWhile_cons, hpa, ih]

theorem drop_length_takeWhile {p : Char → Bool} (l : List Char) :
    l.drop (l.takeWhile p).length = l.dropWhile p := by
  induction l with
  | nil => simp
  | cons a t ih =>
    by_cases hpa : p a
    · simp [List.takeWhile_cons, List.dropWhile_cons, hpa, ih]
    · simp [List.takeWhile_cons, List.dropWhile_cons, hpa]

theorem matchAt_addPrimary (Z : List Char)
    (hCne : Z.dropWhile isWsChar ≠ [])
    (hdot : ∀ c ∈ Z.dropWhile isWsChar, isDotChar c = true) :
    matchAt addFamily.pattern (str "add task " ++ Z) =
      some (some (Z.dropWhile isWsChar)) := by
  show matchAt [.lit (str "add"), .ws, .lit (str "task"), .ws, .dot]
    (str "add" ++ (' ' :: (str "task" ++ (' ' :: Z)))) = _
  rw [matchAt_lit_self]
  apply matchAt_ws_of (k := 0)
  · show countRun isWsChar (' ' :: 't' :: (str "ask" ++ (' ' :: Z))) = 0 + 1
    simp [countRun, (by decide : isWsChar ' ' = true), (by decide : isWsChar 't' = false)]
  · show matchAt [.lit (str "task"), .ws, .dot] (str "task" ++ (' ' :: Z)) = _
    rw [matchAt_lit_self]
    apply matchAt_ws_of (k := (Z.takeWhile isWsChar).length)
    · show countRun isWsChar (' ' :: Z) = (Z.takeWhile isWsChar).length + 1
      simp [countRun, (by decide : isWsChar ' ' = true), countRun_eq_length_takeWhile]
    · show matchAt [.dot] (Z.drop (Z.takeWhile isWsChar).length) = _
      rw [drop_length_takeWhile]
      exact matchAt_dot_last hCne hdot

/-- C5 (amended): for every transcript of the form `P ++ X` where `P`
lower-cases to `"add task "` and `X` is non-empty after trimming and free of
line terminators, the matcher yields command type Add with content equal to
the lower-cased trimmed `X`.  (Without the line-terminator restriction the
group `(.+)` stops at the first newline, see the counterexample.) -/
theorem findBestCommandMatch_addTask (P X : List Char)
    (hp : toLowerStr P = str "add task ")
    (h1 : trimList (toLowerStr X) ≠ [])
    (h2 : ∀ c ∈ toLowerStr X, isDotChar c = true) :
    findBestCommandMatch (P ++ X) = ⟨"add", trimList (toLowerStr X)⟩ := by
  have hp' : P.map Char.toLower = str "add task " := hp
  have hlower : toLowerStr (P ++ X) = str "add task " ++ toLowerStr X := by
    simp only [toLowerStr, List.map_append]
    rw [hp']
  have hrev : (toLowerStr X).reverse.dropWhile isWsChar ≠ [] :=
    reverse_dropWhile_ne_nil_of_trim h1
  have htrim : trimList (str "add task " ++ toLowerStr X) =
      str "add task " ++ (toLowerStr X).rdropWhile isWsChar := by
    unfold trimList
    rw [show str "add task " ++ toLowerStr X = 'a' :: (str "dd task " ++ toLowerStr X)
        from rfl, List.dropWhile_cons, if_neg (by decide)]
    rw [show ('a' : Char) :: (str "dd task " ++ toLowerStr X) =
        str "add task " ++ toLowerStr X from rfl]
    exact rdropWhile_append_left hrev
  have hCeq : ((toLowerStr X).rdropWhile isWsChar).dropWhile isWsChar =
      trimList (toLowerStr X) := dropWhile_rdropWhile_comm (toLowerStr X)
  have hCne : ((toLowerStr X).rdropWhile isWsChar).dropWhile isWsChar ≠ [] := by
    rw [hCeq]; exact h1
  have hdotC : ∀ c ∈ ((toLowerStr X).rdropWhile isWsChar).dropWhile isWsChar,
      isDotChar c = true := by
    intro c hc
    apply h2
    have hm1 : c ∈ (toLowerStr X).rdropWhile isWsChar :=
      (List.dropWhile_sublist isWsChar).subset hc
    exact (List.rdropWhile_prefix (p := isWsChar) (l := toLowerStr X)).subset hm1
  have hm : matchAt addFamily.pattern
      (str "add task " ++ (toLowerStr X).rdropWhile isWsChar) =
      some (some (((toLowerStr X).rdropWhile isWsChar).dropWhile isWsChar)) :=
    matchAt_addPrimary _ hCne hdotC
  have hs : search addFamily.pattern
      (str "add task " ++ (toLowerStr X).rdropWhile isWsChar) =
      some (some (((toLowerStr X).rdropWhile isWsChar).dropWhile isWsChar)) := by
    rw [show str "add task " ++ (toLowerStr X).rdropWhile isWsChar =
      'a' :: (str "dd task " ++ (toLowerStr X).rdropWhile isWsChar) from rfl] at hm ⊢
    exact search_cons_of_some hm
  have hmp : matchPattern addFamily.pattern
      (str "add task " ++ (toLowerStr X).rdropWhile isWsChar) =
      some (((toLowerStr X).rdropWhile isWsChar).dropWhile isWsChar) := by
    simp [matchPattern, hs]
  have htf : tryFamily addFamily
      (str "add task " ++ (toLowerStr X).rdropWhile isWsChar) =
      some (((toLowerStr X).rdropWhile isWsChar).dropWhile isWsChar) := by
    simp [tryFamily, hmp]
  have hname : addFamily.name = "add" := rfl
  simp only [findBestCommandMatch]
  rw [hlower, htrim]
  simp [matchFamilies, commandPatterns, List.findSome?_cons, htf, hname, hCeq]

/-! ### Helper lemmas about the task store -/

theorem taskIds_map_id_preserving {f : Task → Task} (hf : ∀ t, (f t).id = t.id)
    (tasks : List Task) : taskIds (tasks.map f) = taskIds tasks := by
  simp only [taskIds, List.map_map]
  exact List.map_congr_left (fun a _ => hf a)

theorem markTaskAsDone_fst (frag : List Char) (tasks : List Task) :
    (markTaskAsDone frag tasks).1 = tasks.map (fun task =>
      if taskMatches frag task then { task with completed := true } else task) := by
  unfold markTaskAsDone
  by_cases h : tasks.any (taskMatches frag) <;> simp [h]

theorem deleteTask_fst (frag : List Char) (tasks : List Task) :
    (deleteTask frag tasks).1 =
      tasks.filter (fun task => !(taskMatches frag task)) := by
  unfold deleteTask
  simp

theorem deleteTask_snd (frag : List Char) (tasks : List Task) :
    (deleteTask frag tasks).2 = Feedback.noTaskFound frag := by
  unfold deleteTask
  simp

theorem taskIds_addTask (now : Nat) (content : List Char) (tasks : List Task) :
    taskIds (addTask now content tasks) = taskIds tasks ++ [now] := by
  simp [addTask, taskIds]

theorem taskIds_markTaskAsDone (frag : List Char) (tasks : List Task) :
    taskIds (markTaskAsDone frag tasks).1 = taskIds tasks := by
  rw [markTaskAsDone_fst]
  exact taskIds_map_id_preserving
    (fun t => by by_cases h : taskMatches frag t <;> simp [h]) tasks

theorem taskIds_deleteTask_sublist (frag : List Char) (tasks : List Task) :
    (taskIds (deleteTask frag tasks).1).Sublist (taskIds tasks) := by
  rw [deleteTask_fst]
  exact List.Sublist.map Task.id (List.filter_sublist tasks)

theorem taskIds_handleManualToggle (id : Nat) (tasks : List Task) :
    taskIds (handleManualToggle id tasks) = taskIds tasks := by
  unfold handleManualToggle
  exact taskIds_map_id_preserving
    (fun t => by by_cases h : t.id == id <;> simp [h]) tasks

theorem taskIds_handleManualDelete_sublist (id : Nat) (tasks : List Task) :
    (taskIds (handleManualDelete id tasks)).Sublist (taskIds tasks) := by
  unfold handleManualDelete
  exact List.Sublist.map Task.id (List.filter_sublist tasks)

theorem foldl_applyOp_ids_nodup :
    ∀ (ops : List StoreOp) (tasks : List Task),
      (taskIds tasks).Nodup → (addTimes ops).Nodup →
      (∀ i ∈ taskIds tasks, i ∉ addTimes ops) →
      (taskIds (ops.foldl (fun acc op => applyOp op acc) tasks)).Nodup := by
  intro ops
  induction ops with
  | nil => intro tasks h1 _ _; simpa using h1
  | cons op rest ih =>
    intro tasks h1 h2 h3
    rw [List.foldl_cons]
    cases op with
    | add now content =>
      have hids : taskIds (applyOp (.add now content) tasks) = taskIds tasks ++ [now] :=
        taskIds_addTask now content tasks
      have h2' : (addTimes rest).Nodup := (List.nodup_cons.1 h2).2
      have hnotin : now ∉ addTimes rest := (List.nodup_cons.1 h2).1
      apply ih
      · rw [hids, List.nodup_append]
        refine ⟨h1, List.nodup_singleton now, ?_⟩
        intro a ha hb
        rw [List.mem_singleton] at hb
        subst hb
        exact h3 a ha (List.mem_cons_self _ _)
      · exact h2'
      · intro i hi
        rw [hids] at hi
        rcases List.mem_append.1 hi with hi | hi
        · exact fun hmem => h3 i hi (List.mem_cons_of_mem _ hmem)
        · rw [List.mem_singleton] at hi
          subst hi
          exact hnotin
    | markDone frag =>
      apply ih
      · rw [show applyOp (.markDone frag) tasks = (markTaskAsDone frag tasks).1 from rfl,
          taskIds_markTaskAsDone]
        exact h1
      · exact h2
      · intro i hi
        rw [show applyOp (.markDone frag) tasks = (markTaskAsDone frag tasks).1 from rfl,
          taskIds_markTaskAsDone] at hi
        exact h3 i hi
    | delete frag =>
      have hsub := taskIds_deleteTask_sublist frag tasks
      apply ih
      · exact List.Nodup.sublist hsub h1
      · exact h2
      · intro i hi
        exact h3 i (hsub.subset hi)
    | clear =>
      apply ih
      · rw [show applyOp .clear tasks = ([] : List Task) from rfl]
        simp [taskIds]
      · exact h2
      · intro i hi
        rw [show applyOp .clear tasks = ([] : List Task) from rfl] at hi
        simp [taskIds] at hi
    | toggleById id =>
      apply ih
      · rw [show applyOp (.toggleById id) tasks = handleManualToggle id tasks from rfl,
          taskIds_handleManualToggle]
        exact h1
      · exact h2
      · intro i hi
        rw [show applyOp (.toggleById id) tasks = handleManualToggle id tasks from rfl,
          taskIds_handleManualToggle] at hi
        exact h3 i hi
    | deleteById id =>
      have hsub := taskIds_handleManualDelete_sublist id tasks
      apply ih
      · exact List.Nodup.sublist hsub h1
      · exact h2
      · intro i hi
        exact h3 i (hsub.subset hi)

/-! ### Helper lemmas about the session state machine -/

theorem stepSession_inv {st : SessionState}
    (h : st.processingCommand = true ↔ trimList st.transcript ≠ [])
    (e : SessionEvent) :
    (stepSession st e).processingCommand = true ↔
      trimList (stepSession st e).transcript ≠ [] := by
  cases e with
  | result s =>
    by_cases hs : (trimList s).isEmpty
    · simpa [stepSession, hs] using h
    · rw [List.isEmpty_iff] at hs
      simp [stepSession, List.isEmpty_iff, hs]
  | editChange s => simpa [stepSession] using h
  | toggleEdit => simpa [stepSession] using h
  | confirm now =>
    by_cases hc : (st.processingCommand && !(trimList st.editedTranscript).isEmpty) = true
    · simp only [stepSession]
      rw [if_pos hc]
      simp [clearInputs, trimList]
    · simp only [stepSession]
      rw [if_neg hc]
      simpa using h
  | cancel => simp [stepSession, clearInputs, trimList]
  | error code => simp [stepSession, clearInputs, trimList]

theorem foldl_stepSession_inv :
    ∀ (evs : List SessionEvent) (st : SessionState),
      (st.processingCommand = true ↔ trimList st.transcript ≠ []) →
      ((evs.foldl stepSession st).processingCommand = true ↔
        trimList (evs.foldl stepSession st).transcript ≠ []) := by
  intro evs
  induction evs with
  | nil => intro st h; simpa using h
  | cons e rest ih =>
    intro st h
    rw [List.foldl_cons]
    exact ih (stepSession st e) (stepSession_inv h e)

/-! ### Claim theorems -/

/-- C1 (code bug): at the failing input — the list containing exactly the
task "buy milk" and the fragment "buy milk" — `deleteTask` does empty the
list, but the reported status is `noTaskFound`, not a deletion report; and
in fact the success branch is dead code for every input, because the guard
`tasks.length !== initialLength` compares the unchanged state snapshot's
length with itself. -/
theorem deleteTask_reports_noTaskFound :
    deleteTask (str "buy milk")
      [{ id := 1, content := str "buy milk", completed := false }] =
      ([], Feedback.noTaskFound (str "buy milk")) ∧
    ∀ (taskContent : List Char) (tasks : List Task),
      (deleteTask taskContent tasks).2 = Feedback.noTaskFound taskContent :=
  ⟨by decide, fun taskContent tasks => deleteTask_snd taskContent tasks⟩

/-- C2 counterexample: two adds within the same clock millisecond
(`Date.now()` returning 5 twice) produce two tasks with the same id, so task
identifiers are not unconditionally unique. -/
theorem duplicate_ids_when_clock_repeats :
    ¬ (taskIds (runOps [.add 5 (str "a"), .add 5 (str "b")])).Nodup := by decide

/-- C2 (amended): provided the clock values consumed by the add operations
are pairwise distinct (the source takes `Date.now()` as the id, which can
repeat within a millisecond), every task list reachable by a sequence of
add, markDone, delete, clear, toggleById and deleteById operations has
pairwise distinct task ids; since this holds for every prefix of the
sequence, an id, once assigned, is never assigned to a later task. -/
theorem runOps_ids_nodup (ops : List StoreOp) (h : (addTimes ops).Nodup) :
    (taskIds (runOps ops)).Nodup :=
  foldl_applyOp_ids_nodup ops [] (by simp [taskIds]) h (by simp [taskIds])

/-- C2 witness: a concrete mixed run with distinct clock values yields
pairwise-distinct ids. -/
theorem runOps_ids_nodup_witness :
    (taskIds (runOps [.add 1 (str "a"), .markDone (str "a"), .add 2 (str "b"),
      .deleteById 1, .add 3 (str "c")])).Nodup :=
  runOps_ids_nodup _ (by decide)

/-- C3 counterexample: after a recognition result "hi" followed by the user
editing the editable transcript to the empty string, the pending-command
flag is still true while the transcript that confirm would commit is empty. -/
theorem pendingFlag_with_empty_edit :
    (runSession [.result (str "hi"), .editChange []]).processingCommand = true ∧
    trimList (runSession [.result (str "hi"), .editChange []]).editedTranscript
      = [] := by decide

/-- C3 (amended): in every reachable session state the pending-command flag
is true iff the raw transcript is non-empty after trimming; the editable
transcript, by contrast, can be emptied by user edits while the flag stays
true (confirm then reports "no command to process"). -/
theorem processingCommand_iff_raw_transcript (evs : List SessionEvent) :
    (runSession evs).processingCommand = true ↔
      trimList (runSession evs).transcript ≠ [] :=
  foldl_stepSession_inv evs initSession (by simp [initSession, trimList])

/-- C4 counterexample: the transcript "add task" alone does not yield empty
content — the Add fallback pattern `/add\s+(.+)/` matches it and captures
the word "task" — and applying the command adds a task instead of reporting
a missing-content condition. -/
theorem addTask_alone_captures_task :
    findBestCommandMatch (str "add task") = ⟨"add", str "task"⟩ ∧
    (findBestCommandMatch (str "add task")).content ≠ [] ∧
    (processVoiceCommand 7 (str "add task") []).1 ≠ [] := by decide

/-- C4 (amended): for the transcript "add task" alone the matcher yields
Add with content "task" (captured by the fallback pattern `/add\s+(.+)/`),
and applying the command appends a task with content "task" and reports it
added; the "no content specified" branch is not taken. -/
theorem processVoiceCommand_addTask_alone (now : Nat) (tasks : List Task) :
    processVoiceCommand now (str "add task") tasks =
      (tasks ++ [{ id := now, content := str "task", completed := false }],
        Feedback.addedTask (str "task")) := by
  have h : findBestCommandMatch (str "add task") = ⟨"add", str "task"⟩ := by decide
  have hne : (str "task" : List Char).isEmpty = false := by decide
  simp [processVoiceCommand, h, hne, addTask]

/-- C5 counterexample: for X = "a\nb" — a line terminator inside the
captured text — the transcript "add task a\nb" yields content "a", not the
trimmed X, because the group `(.+)` does not match line terminators. -/
theorem addTask_newline_content :
    findBestCommandMatch (str "add task a\nb") = ⟨"add", str "a"⟩ ∧
    (findBestCommandMatch (str "add task a\nb")).content ≠
      trimList (toLowerStr (str "a\nb")) := by decide

/-- C5 witness: the amended theorem applied at P = "Add Task " and
X = " Buy Milk  " (case and surrounding whitespace in both parts). -/
theorem findBestCommandMatch_addTask_witness :
    findBestCommandMatch (str "Add Task " ++ str " Buy Milk  ") =
      ⟨"add", str "buy milk"⟩ := by
  have h := findBestCommandMatch_addTask (str "Add Task ") (str " Buy Milk  ")
    (by decide) (by decide) (by decide)
  rw [h]
  decide

/-- C6 counterexample: for the unmatched transcript " hi " the result
content is the trimmed lower-cased input "hi", not the original lower-cased
input " hi ". -/
theorem unknown_content_is_trimmed :
    (findBestCommandMatch (str " hi ")).command = "unknown" ∧
    (findBestCommandMatch (str " hi ")).content ≠ toLowerStr (str " hi ") := by
  decide

/-- C6 (amended): when no family matches the lower-cased trimmed
transcript, the matcher returns Unknown carrying that lower-cased trimmed
input (and never throws, being a total function); in particular an empty or
whitespace-only transcript yields Unknown with empty content. -/
theorem findBestCommandMatch_unknown (t : List Char) :
    (matchFamilies (trimList (toLowerStr t)) = none →
      findBestCommandMatch t = ⟨"unknown", trimList (toLowerStr t)⟩) ∧
    (trimList (toLowerStr t) = [] →
      findBestCommandMatch t = ⟨"unknown", []⟩) := by
  constructor
  · intro h
    simp only [findBestCommandMatch]
    rw [h]
  · intro h
    simp only [findBestCommandMatch]
    rw [h]
    have hnil : matchFamilies [] = none := by decide
    rw [hnil]

/-- C6 witness: the amended theorem applied at the unmatched transcript
" hi there " and at the whitespace-only transcript "   ". -/
theorem findBestCommandMatch_unknown_witness :
    findBestCommandMatch (str " hi there ") = ⟨"unknown", str "hi there"⟩ ∧
    findBestCommandMatch (str "   ") = ⟨"unknown", []⟩ := by
  constructor
  · have h := (findBestCommandMatch_unknown (str " hi there ")).1 (by decide)
    rw [h]
    decide
  · exact (findBestCommandMatch_unknown (str "   ")).2 (by decide)

/-- C7: the families are tried in the fixed order Add, Mark, Delete, Clear,
so every transcript whose normalised form is matched by the Add family —
in particular one also matched by a Mark pattern — resolves to Add. -/
theorem add_checked_before_mark (t : List Char)
    (hAdd : (tryFamily addFamily (trimList (toLowerStr t))).isSome = true)
    (hMark : (tryFamily markFamily (trimList (toLowerStr t))).isSome = true) :
    (findBestCommandMatch t).command = "add" := by
  rcases Option.isSome_iff_exists.1 hAdd with ⟨c, hc⟩
  have hmf : matchFamilies (trimList (toLowerStr t)) = some ⟨addFamily.name, c⟩ := by
    simp [matchFamilies, commandPatterns, List.findSome?_cons, hc]
  have hmf' : matchFamilies (trimList (toLowerStr t)) = some ⟨"add", c⟩ := hmf
  simp only [findBestCommandMatch]
  rw [hmf']

/-- C7 witness: "add complete report" matches both an Add fallback and a
Mark fallback and resolves to Add. -/
theorem add_checked_before_mark_witness :
    (findBestCommandMatch (str "add complete report")).command = "add" :=
  add_checked_before_mark _ (by decide) (by decide)

/-- C8: `markTaskAsDone` preserves length and order, maps every matching
task to the same task with `completed := true`, leaves every non-matching
task exactly unchanged (id, content and flag), and when no task matches it
reports `noTasksFound` and returns the list unchanged. -/
theorem markTaskAsDone_spec (fragment : List Char) (tasks : List Task) :
    (markTaskAsDone fragment tasks).1.length = tasks.length ∧
    (∀ i : Fin tasks.length,
      ((markTaskAsDone fragment tasks).1)[(i : Nat)]? =
        some (if taskMatches fragment (tasks.get i) then
          { tasks.get i with completed := true } else tasks.get i)) ∧
    (tasks.any (taskMatches fragment) = false →
      (markTaskAsDone fragment tasks).2 = Feedback.noTasksFound fragment ∧
      (markTaskAsDone fragment tasks).1 = tasks) := by
  refine ⟨?_, ?_, ?_⟩
  · rw [markTaskAsDone_fst]
    simp
  · intro i
    rw [markTaskAsDone_fst, List.getElem?_map, List.getElem?_eq_getElem i.isLt]
    simp [List.get_eq_getElem]
  · intro h
    constructor
    · unfold markTaskAsDone
      simp [h]
    · rw [markTaskAsDone_fst]
      have hall := List.any_eq_false.1 h
      have hmap : tasks.map (fun task => if taskMatches fragment task then
          { task with completed := true } else task) =
          tasks.map (fun task => task) :=
        List.map_congr_left (fun a ha => by rw [if_neg (hall a ha)])
      rw [hmap]
      simp

/-- C8 witness: the theorem applied at two concrete inputs — a matching
fragment updating the first task in place, and a non-matching fragment
reporting `noTasksFound` with the list unchanged. -/
theorem markTaskAsDone_spec_witness :
    (markTaskAsDone (str "milk")
      [{ id := 1, content := str "buy milk", completed := false },
       { id := 2, content := str "code", completed := false }]).1[(0 : Nat)]? =
      some { id := 1, content := str "buy milk", completed := true } ∧
    (markTaskAsDone (str "zzz")
      [{ id := 1, content := str "buy milk", completed := false }]).2 =
      Feedback.noTasksFound (str "zzz") ∧
    (markTaskAsDone (str "zzz")
      [{ id := 1, content := str "buy milk", completed := false }]).1 =
      [{ id := 1, content := str "buy milk", completed := false }] := by
  refine ⟨?_, ?_, ?_⟩
  · have h := (markTaskAsDone_spec (str "milk")
      [{ id := 1, content := str "buy milk", completed := false },
       { id := 2, content := str "code", completed := false }]).2.1 ⟨0, by decide⟩
    rw [h]
    decide
  · exact ((markTaskAsDone_spec (str "zzz")
      [{ id := 1, content := str "buy milk", completed := false }]).2.2
        (by decide)).1
  · exact ((markTaskAsDone_spec (str "zzz")
      [{ id := 1, content := str "buy milk", completed := false }]).2.2
        (by decide)).2

/-- C9: when the stream ends while the component believes it is listening,
exactly one restart (external `start()` call) is attempted; if the restart
throws, listening becomes false and the status reports the unexpected stop;
and no single invocation of the handler ever makes more than one start
call, so there is no restart loop within one event. -/
theorem handleOnEnd_spec :
    (∀ (startOk : Bool) (fb : Feedback),
      (handleOnEnd true startOk fb).startCalls = 1) ∧
    (∀ fb : Feedback, handleOnEnd true false fb =
      { startCalls := 1, listening := false,
        feedback := Feedback.stoppedUnexpectedly }) ∧
    (∀ (listening startOk : Bool) (fb : Feedback),
      (handleOnEnd listening startOk fb).startCalls ≤ 1) := by
  refine ⟨fun startOk fb => ?_, fun fb => ?_, fun listening startOk fb => ?_⟩
  · cases startOk <;> simp [handleOnEnd]
  · simp [handleOnEnd]
  · cases listening <;> cases startOk <;> simp [handleOnEnd]

/-- C10: the includes-based variant extracts the empty fragment from the
transcript "mark as done" and passes it straight to `markTaskAsDone`, and
`markTaskAsDone` with the empty fragment marks every task completed, since
every content contains the empty substring. -/
theorem markAsDone_empty_fragment (now : Nat) (tasks : List Task)
    (fb : Feedback) :
    processVoiceCommandTsx now (str "mark as done") tasks fb =
      markTaskAsDone [] tasks ∧
    (markTaskAsDone [] tasks).1 =
      tasks.map (fun task => { task with completed := true }) := by
  constructor
  · have h1 : jsIncludes (toLowerStr (str "mark as done")) (str "add task")
      = false := by decide
    have h2 : jsIncludes (toLowerStr (str "mark as done")) (str "mark")
      = true := by decide
    have h3 : jsIncludes (toLowerStr (str "mark as done")) (str "as done")
      = true := by decide
    have h4 : trimList (replaceFirst (replaceFirst (toLowerStr
      (str "mark as done")) (str "mark") []) (str "as done") []) = [] := by
      decide
    simp [processVoiceCommandTsx, h1, h2, h3, h4]
  · rw [markTaskAsDone_fst]
    refine List.map_congr_left (fun a _ => ?_)
    rw [if_pos (show taskMatches [] a = true from jsIncludes_nil _)]

end VoiceToDo
